import Mathlib

/-
Formal model of the table pipeline of pdf_processor (src/pdf_processor/table.py).

Coordinates of the source (Python floats) are modelled as rationals; Python
text is modelled as Lean strings manipulated through their character lists,
with the Python string primitives (strip, split, membership) re-implemented
below so that every definition evaluates inside the kernel.  Python's sorted
(a stable sort under a total preorder) is modelled by List.insertionSort,
which is also stable.  The document engine (PyMuPDF) is an external
collaborator: a page is modelled as the two results the pipeline reads from
it (get_drawings and get_text "dict"), each an Except, which models the
"engine may throw" contract used by the error-handling code.
-/

set_option allowUnsafeReducibility true in
attribute [semireducible] Rat.add Rat.sub Rat.mul Rat.inv

/-- Python's abs on a float, for rationals. -/
def qabs (q : ℚ) : ℚ := if q < 0 then -q else q

/-- Python's abs on an int. -/
def iabs (n : ℤ) : ℤ := if n < 0 then -n else n

/-- The whitespace characters of Python's str.strip / str.split (ASCII range). -/
def pyIsSpace (c : Char) : Bool :=
  c = ' ' || c = '\t' || c = '\n' || c = '\r' || c = '\x0b' || c = '\x0c'

/-- Python str.strip() on a character list. -/
def pyStripList (cs : List Char) : List Char :=
  ((cs.dropWhile pyIsSpace).reverse.dropWhile pyIsSpace).reverse

/-- Python str.strip(). -/
def pyStrip (s : String) : String := String.mk (pyStripList s.toList)

/-- Helper for Python str.split() with no argument: accumulate the current
word (reversed) and emit maximal non-whitespace runs. -/
def wsTokensAux : List Char → List Char → List (List Char)
  | [], acc => if acc.isEmpty then [] else [acc.reverse]
  | c :: cs, acc =>
    if pyIsSpace c then
      if acc.isEmpty then wsTokensAux cs [] else acc.reverse :: wsTokensAux cs []
    else wsTokensAux cs (c :: acc)

/-- Python str.split() with no argument: whitespace-separated words. -/
def pySplitWS (s : String) : List String :=
  (wsTokensAux s.toList []).map String.mk

/-- Helper for Python str.split(sep) with a one-character separator:
segments between occurrences of the separator, empty segments kept. -/
def splitCharAux (sep : Char) : List Char → List Char → List (List Char)
  | [], acc => [acc.reverse]
  | c :: cs, acc =>
    if c = sep then acc.reverse :: splitCharAux sep cs []
    else splitCharAux sep cs (c :: acc)

/-- Python str.split(sep) for a one-character separator. -/
def pySplitChar (sep : Char) (s : String) : List String :=
  (splitCharAux sep s.toList []).map String.mk

/-- Helper for Python str.split(sep) with a non-empty separator string: a
left-to-right scan splitting at each non-overlapping occurrence.  The first
argument is fuel; the text's length is always enough, so the zero-fuel
branch is never reached on the calls below. -/
def splitSubFuel (s0 : Char) (sr : List Char) : ℕ → List Char → List Char → List (List Char)
  | 0, l, acc => [acc.reverse ++ l]
  | _ + 1, [], acc => [acc.reverse]
  | n + 1, c :: cs, acc =>
    if (s0 :: sr).isPrefixOf (c :: cs) then
      acc.reverse :: splitSubFuel s0 sr n (cs.drop sr.length) []
    else splitSubFuel s0 sr n cs (c :: acc)

/-- Python str.split(sep) for an arbitrary separator string (the source only
calls it with a non-empty separator, a word of the text). -/
def pySplitOn (s sep : String) : List String :=
  match sep.toList with
  | [] => [s]
  | s0 :: sr => (splitSubFuel s0 sr s.toList.length s.toList []).map String.mk

/-- Python `c in s` for a one-character needle. -/
def pyContainsChar (s : String) (c : Char) : Bool := s.toList.contains c

/-- Python str.endswith. -/
def pyEndsWith (s suffix : String) : Bool := suffix.toList.isSuffixOf s.toList

/-- table.py TableMetrics (defaults as in the dataclass). -/
structure TableMetrics where
  min_rows : ℤ := 2
  min_cols : ℤ := 2
  line_spacing_threshold : ℚ := 15
  min_cell_width : ℚ := 20
  min_cell_height : ℚ := 10
  max_cell_width : ℚ := 500
  max_cell_height : ℚ := 100
  min_row_alignment : ℚ := 4 / 5
  min_col_alignment : ℚ := 4 / 5
  max_col_spacing : ℚ := 50
  max_row_spacing : ℚ := 20
  min_border_length : ℚ := 10
  min_table_width : ℚ := 50
  min_table_height : ℚ := 20
  min_width : ℚ := 50
  min_height : ℚ := 20
  min_aspect_ratio : ℚ := 1 / 2
  deriving DecidableEq

def defaultMetrics : TableMetrics := {}

/-- text.py TextBlock. -/
structure TextBlock where
  text : String
  x0 : ℚ
  y0 : ℚ
  x1 : ℚ
  y1 : ℚ
  font_size : ℚ
  font : String
  deriving DecidableEq

instance : Inhabited TextBlock :=
  ⟨{ text := "", x0 := 0, y0 := 0, x1 := 0, y1 := 0, font_size := 0, font := "" }⟩

/-- table.py TableCell (defaults as in the dataclass). -/
structure TableCell where
  content : String
  x0 : ℚ := 0
  y0 : ℚ := 0
  x1 : ℚ := 0
  y1 : ℚ := 0
  row_span : ℤ := 1
  col_span : ℤ := 1
  alignment : String := "left"
  is_header : Bool := false
  formatting : List String := []
  deriving DecidableEq

instance : Inhabited TableCell := ⟨{ content := "" }⟩

/-- table.py Table (defaults as in the dataclass). -/
structure Table where
  cells : List (List TableCell) := []
  has_header : Bool := false
  x0 : ℚ := 0
  y0 : ℚ := 0
  x1 : ℚ := 0
  y1 : ℚ := 0
  deriving DecidableEq

instance : Inhabited Table := ⟨{}⟩

/-- table.py is_potential_table_row.  Note the last heuristic: the source
computes `text.split(words[0])[1:]`, i.e. it splits the whole text on its
first word, keeps the segments that contain non-whitespace, and compares
their lengths. -/
def is_potential_table_row (block : TextBlock) (_metrics : TableMetrics) : Bool :=
  let text := pyStrip block.text
  if text = "" then false
  else if pyContainsChar text '|' then true
  else
    let words := pySplitWS text
    if words.length < 2 then false
    else
      let num_count := (words.filter (fun w => w.toList.any (fun c => c.isDigit))).length
      if 0 < num_count ∧ num_count < words.length then true
      else
        let spaces := (((pySplitOn text words.headI).drop 1).filter
          (fun s => decide (pyStrip s ≠ ""))).map String.length
        match spaces with
        | [] => false
        | s0 :: _ => spaces.all (fun s => decide (iabs ((s : ℤ) - (s0 : ℤ)) ≤ 1))

/-- Maximal whitespace-run lengths of a character list (state: length of the
run being read). -/
def wsRunsAux : List Char → ℕ → List ℕ
  | [], run => if run = 0 then [] else [run]
  | c :: cs, run =>
    if pyIsSpace c then wsRunsAux cs (run + 1)
    else if run = 0 then wsRunsAux cs 0
    else run :: wsRunsAux cs 0

/-- Maximal whitespace-run lengths of a string; on stripped text these are
exactly the inter-word whitespace runs. -/
def wsRuns (s : String) : List ℕ := wsRunsAux s.toList 0

/-- Modelled from the spec's description of is_potential_table_row (claim
C4, spec section 4.2): the text is a potential table row iff it is non-empty
after stripping and (a) contains a pipe, or (b) splits into at least two
words with a digit-word fraction strictly between 0 and 1, or (c) splits
into at least two words whose inter-word whitespace run lengths are all
within one character of each other. -/
def spec_row_rules (block : TextBlock) : Prop :=
  let text := pyStrip block.text
  let words := pySplitWS text
  let num_count := (words.filter (fun w => w.toList.any (fun c => c.isDigit))).length
  let runs := wsRuns text
  text ≠ "" ∧
    (pyContainsChar text '|' = true ∨
      (2 ≤ words.length ∧ 0 < num_count ∧ num_count < words.length) ∨
      (2 ≤ words.length ∧ ∀ r ∈ runs, ∀ r2 ∈ runs, iabs ((r : ℤ) - (r2 : ℤ)) ≤ 1))

instance : DecidablePred spec_row_rules := fun b => by
  unfold spec_row_rules; infer_instance

/-- One pipe-separated segment as a cell: kept (stripped, carrying the whole
block's bbox) when it still has content after stripping, dropped otherwise. -/
def pipeCellOf (block : TextBlock) (cell_text : String) : Option TableCell :=
  if pyStrip cell_text ≠ "" then
    some { content := pyStrip cell_text, x0 := block.x0, x1 := block.x1,
           y0 := block.y0, y1 := block.y1 }
  else none

/-- The row of cells that add_block_to_table builds from a pipe-delimited
line: split on the pipes, keep each segment that still has content after
stripping, as a cell carrying the whole block's bbox. -/
def pipeRowCells (block : TextBlock) : List TableCell :=
  (pySplitChar '|' (pyStrip block.text)).filterMap (pipeCellOf block)

/-- The (word, cumulative character position) pairs of add_block_to_table's
positions loop. -/
def wordPosAux : ℕ → List String → List (String × ℕ)
  | _, [] => []
  | acc, w :: ws => (w, acc) :: wordPosAux (acc + w.length + 1) ws

/-- The final value of add_block_to_table's current_pos counter. -/
def currentPos (words : List String) : ℕ :=
  words.foldl (fun acc w => acc + w.length + 1) 0

/-- The row of cells that add_block_to_table builds from a whitespace-split
line: per-word x-spans interpolated across the block's bbox width by
cumulative character offsets. -/
def wordRowCells (block : TextBlock) (words : List String) : List TableCell :=
  let cp : ℚ := (currentPos words : ℚ)
  (wordPosAux 0 words).map (fun wp =>
    { content := wp.1,
      x0 := block.x0 + ((wp.2 : ℚ) / cp) * (block.x1 - block.x0),
      x1 := block.x0 + (((wp.2 : ℚ) + (wp.1.length : ℚ)) / cp) * (block.x1 - block.x0),
      y0 := block.y0, y1 := block.y1 })

/-- The bound updates of add_block_to_table.  They keep Python's float
truthiness: a coordinate equal to 0 is replaced outright. -/
def addBlockBounds (table : Table) (block : TextBlock) : Table :=
  { table with
    x0 := if table.x0 ≠ 0 then min table.x0 block.x0 else block.x0,
    x1 := if table.x1 ≠ 0 then max table.x1 block.x1 else block.x1,
    y0 := if table.y0 ≠ 0 then min table.y0 block.y0 else block.y0,
    y1 := if table.y1 ≠ 0 then max table.y1 block.y1 else block.y1 }

/-- The cells list add_block_to_table builds: the pipe branch when the
stripped text contains a pipe, else the whitespace branch when there are at
least min_cols words, else nothing. -/
def addBlockCells (block : TextBlock) (metrics : TableMetrics) : List TableCell :=
  if pyContainsChar (pyStrip block.text) '|' then pipeRowCells block
  else if ((pySplitWS (pyStrip block.text)).length : ℤ) ≥ metrics.min_cols
  then wordRowCells block (pySplitWS (pyStrip block.text)) else []

/-- table.py add_block_to_table: update the bounds, then append the row when
it is non-empty. -/
def add_block_to_table (table : Table) (block : TextBlock) (metrics : TableMetrics) : Table :=
  if (addBlockCells block metrics).isEmpty then addBlockBounds table block
  else { addBlockBounds table block with
         cells := (addBlockBounds table block).cells ++ [addBlockCells block metrics] }

/-- The (y0, x0) sort key order of merge_overlapping_tables and of the
alignment detector (Python tuple comparison). -/
def tableLEkey (a b : Table) : Prop :=
  a.y0 < b.y0 ∨ (a.y0 = b.y0 ∧ a.x0 ≤ b.x0)

instance : DecidableRel tableLEkey := fun a b => by unfold tableLEkey; infer_instance

/-- The merge test of merge_overlapping_tables. -/
def tablesOverlap (current cand : Table) : Prop :=
  current.y1 ≥ cand.y0 ∧ current.x1 ≥ cand.x0 ∧ current.x0 ≤ cand.x1

instance : DecidableRel tablesOverlap := fun a b => by unfold tablesOverlap; infer_instance

/-- The merge step of merge_overlapping_tables: union the bounding boxes and
concatenate the rows (rows are concatenated only when both tables have
some). -/
def mergeTwo (current cand : Table) : Table :=
  { current with
    x0 := min current.x0 cand.x0, y0 := min current.y0 cand.y0,
    x1 := max current.x1 cand.x1, y1 := max current.y1 cand.y1,
    cells := if ¬ current.cells.isEmpty ∧ ¬ cand.cells.isEmpty
             then current.cells ++ cand.cells else current.cells }

/-- The running-current loop of merge_overlapping_tables. -/
def mergeLoop (current : Table) : List Table → List Table
  | [] => [current]
  | cand :: rest =>
    if tablesOverlap current cand then mergeLoop (mergeTwo current cand) rest
    else current :: mergeLoop cand rest

/-- table.py merge_overlapping_tables. -/
def merge_overlapping_tables (tables : List Table) : List Table :=
  match List.insertionSort tableLEkey tables with
  | [] => []
  | t :: rest => mergeLoop t rest

/-- table.py validate_table_cells (num_cols, the first row's length, is
inlined). -/
def validate_table_cells (table : Table) (_metrics : TableMetrics) : Bool :=
  if table.cells.isEmpty then false
  else if table.cells.length < 2 then false
  else if table.cells.any (fun row => decide (row.length < 2)) then false
  else if (table.cells.drop 1).any
      (fun row => decide (row.length ≠ table.cells.headI.length)) then false
  else true

/-- table.py validate_table (width and height are inlined). -/
def validate_table (table : Table) (metrics : TableMetrics) : Bool :=
  if table.x1 - table.x0 < metrics.min_width ∨ table.y1 - table.y0 < metrics.min_height
  then false
  else if ¬ validate_table_cells table metrics then false
  else true

/-- Minimum of a non-empty rational list (junk value 0 on the empty list,
which the callers rule out). -/
def listMinQ : List ℚ → ℚ
  | [] => 0
  | x :: xs => xs.foldl min x

/-- Maximum of a non-empty rational list (junk value 0 on the empty list). -/
def listMaxQ : List ℚ → ℚ
  | [] => 0
  | x :: xs => xs.foldl max x

/-- table.py detect_table_from_lines: the table's bounding box from the
extreme x-coordinates of the vertical lines and the extreme y-coordinates of
the horizontal ones. -/
def detect_table_from_lines (horizontal_lines vertical_lines : List (ℚ × ℚ × ℚ × ℚ)) :
    Option Table :=
  if horizontal_lines.isEmpty ∨ vertical_lines.isEmpty then none
  else
    some { x0 := listMinQ (vertical_lines.map (fun l => min l.1 l.2.2.1)),
           y0 := listMinQ (horizontal_lines.map (fun l => min l.2.1 l.2.2.2)),
           x1 := listMaxQ (vertical_lines.map (fun l => max l.1 l.2.2.1)),
           y1 := listMaxQ (horizontal_lines.map (fun l => max l.2.1 l.2.2.2)) }

/-- One span of the document engine's text dictionary. -/
structure RawSpan where
  text : String
  bbox : ℚ × ℚ × ℚ × ℚ
  font : String := ""
  size : ℚ := 0
  deriving DecidableEq

/-- One line of a text-dictionary block. -/
structure RawLine where
  spans : List RawSpan
  deriving DecidableEq

/-- One block of the text dictionary ("type" 0 marks a text block). -/
structure RawBlock where
  typ : ℤ := 0
  bbox : ℚ × ℚ × ℚ × ℚ
  lines : List RawLine
  deriving DecidableEq

/-- A page as the pipeline reads it from the document engine: the result of
get_drawings (each path's bounding rectangle) and of get_text "dict" (its
blocks).  An Except.error models the engine throwing during the read. -/
structure PageData where
  drawings : Except String (List (ℚ × ℚ × ℚ × ℚ))
  textBlocks : Except String (List RawBlock)

/-- The in-bounds test of extract_text_blocks (2-unit tolerance). -/
def blockInBounds (t : Table) (bbox : ℚ × ℚ × ℚ × ℚ) : Prop :=
  bbox.1 ≥ t.x0 - 2 ∧ bbox.2.2.1 ≤ t.x1 + 2 ∧ bbox.2.1 ≥ t.y0 - 2 ∧ bbox.2.2.2 ≤ t.y1 + 2

instance : ∀ t bbox, Decidable (blockInBounds t bbox) := fun t bbox => by
  unfold blockInBounds; infer_instance

/-- The TextBlock built from one span (the span's text is stripped). -/
def spanToTextBlock (span : RawSpan) : TextBlock :=
  { text := pyStrip span.text, x0 := span.bbox.1, y0 := span.bbox.2.1,
    x1 := span.bbox.2.2.1, y1 := span.bbox.2.2.2, font := span.font,
    font_size := span.size }

/-- table.py extract_text_blocks: every non-empty span of every type-0 block
(within the table's bounds when one is given); an engine failure is caught
and yields the empty list. -/
def extract_text_blocks (page : PageData) (tbl : Option Table) : List TextBlock :=
  match page.textBlocks with
  | Except.error _ => []
  | Except.ok raw =>
    (raw.filter (fun b =>
      decide (b.typ = 0) &&
        match tbl with
        | none => true
        | some t => decide (blockInBounds t b.bbox))).flatMap
      (fun b => b.lines.flatMap (fun line =>
        (line.spans.filter (fun span => decide (pyStrip span.text ≠ ""))).map
          spanToTextBlock))

/-- Sort key of convert_blocks_to_cells' first sort (by y0 only). -/
def blockLEy (a b : TextBlock) : Prop := a.y0 ≤ b.y0

instance : DecidableRel blockLEy := fun a b => by unfold blockLEy; infer_instance

/-- Sort key of the within-row sort (by x0). -/
def blockLEx (a b : TextBlock) : Prop := a.x0 ≤ b.x0

instance : DecidableRel blockLEx := fun a b => by unfold blockLEx; infer_instance

/-- Sort key of the alignment detector's sort (by (y0, x0)). -/
def blockLEyx (a b : TextBlock) : Prop := a.y0 < b.y0 ∨ (a.y0 = b.y0 ∧ a.x0 ≤ b.x0)

instance : DecidableRel blockLEyx := fun a b => by unfold blockLEyx; infer_instance

/-- Row grouping of convert_blocks_to_cells: a new row starts when y0 moves
more than 5 units from the row-opening y0; each finished row is sorted by
x0. -/
def groupRowsAux : List TextBlock → ℚ → List TextBlock → List (List TextBlock)
  | [], _, current_row =>
    if current_row.isEmpty then [] else [List.insertionSort blockLEx current_row]
  | b :: bs, current_y, current_row =>
    if qabs (b.y0 - current_y) > 5 then
      if current_row.isEmpty then groupRowsAux bs b.y0 [b]
      else List.insertionSort blockLEx current_row :: groupRowsAux bs b.y0 [b]
    else groupRowsAux bs current_y (current_row ++ [b])

/-- Insert into a sorted duplicate-free list. -/
def insertSortedDistinct (x : ℚ) : List ℚ → List ℚ
  | [] => [x]
  | y :: ys =>
    if x < y then x :: y :: ys
    else if x = y then y :: ys
    else y :: insertSortedDistinct x ys

/-- Python sorted(set(xs)). -/
def sortedSet (xs : List ℚ) : List ℚ :=
  xs.foldl (fun acc x => insertSortedDistinct x acc) []

/-- The rows of blocks convert_blocks_to_cells forms (sorted by y0, grouped,
each row sorted by x0). -/
def rowsOf (blocks : List TextBlock) : List (List TextBlock) :=
  if blocks.isEmpty then []
  else
    let sortedB := List.insertionSort blockLEy blocks
    groupRowsAux sortedB sortedB.headI.y0 []

/-- The column boundaries of convert_blocks_to_cells: midpoints between
consecutive distinct x-edges collected over all rows. -/
def columnBoundsOf (blocks : List TextBlock) : List ℚ :=
  let x_coords := sortedSet
    ((rowsOf blocks).flatMap (fun row => row.flatMap (fun b => [b.x0, b.x1])))
  (x_coords.zip (x_coords.drop 1)).map (fun p => (p.1 + p.2) / 2)

/-- The cell built from one block of a row (the grid builder leaves the
cell's bbox at its defaults). -/
def mkGridCell (b : TextBlock) : TableCell :=
  { content := b.text,
    is_header := pyEndsWith b.font "-Bold",
    alignment := if b.font_size > 12 then "center" else "left" }

def emptyCell : TableCell := { content := "" }

/-- The per-row column-cursor loop of convert_blocks_to_cells: skip an empty
cell for each boundary the block's x0 has passed, place the block, and pad
the row's end up to one cell past the last boundary. -/
def fillRow (column_bounds : List ℚ) : List TextBlock → ℕ → List TableCell
  | [], current_col => List.replicate (column_bounds.length + 1 - current_col) emptyCell
  | b :: bs, current_col =>
    let skipped := ((column_bounds.drop current_col).takeWhile
      (fun m => decide (b.x0 > m))).length
    List.replicate skipped emptyCell ++
      (mkGridCell b :: fillRow column_bounds bs (current_col + skipped + 1))

/-- table.py convert_blocks_to_cells. -/
def convert_blocks_to_cells (blocks : List TextBlock) : List (List TableCell) :=
  if blocks.isEmpty then []
  else (rowsOf blocks).map (fun row_blocks => fillRow (columnBoundsOf blocks) row_blocks 0)

/-- The entries one cell contributes to its rendered Markdown row: its
stripped content, followed by col_span - 1 blank filler entries when
col_span exceeds one. -/
def formatCellEntries (cell : TableCell) : List String :=
  let text := if cell.content ≠ "" then pyStrip cell.content else ""
  if cell.col_span > 1 then text :: List.replicate (cell.col_span - 1).toNat ""
  else [text]

/-- The cell entries of one rendered Markdown row of table_to_markdown. -/
def format_row_parts (cells : List TableCell) : List String :=
  cells.flatMap formatCellEntries

/-- The format_row helper of table_to_markdown, as the rendered line. -/
def format_row (cells : List TableCell) : String :=
  let parts := (format_row_parts cells).map (fun cell =>
    if cell ≠ "" then " " ++ cell ++ " " else " ")
  "|" ++ String.intercalate "|" parts ++ "|"

/-- The alignment marker of one header cell (center, right, else left). -/
def alignEntry (cell : TableCell) : String :=
  if cell.alignment = "center" then ":---:"
  else if cell.alignment = "right" then "---:"
  else ":---"

/-- The entries one header cell contributes to the alignment row: its own
marker, then ":---" repeated col_span - 1 times. -/
def alignCellEntries (cell : TableCell) : List String :=
  alignEntry cell :: List.replicate (cell.col_span - 1).toNat ":---"

/-- The alignment-row entries of table_to_markdown: per header cell its own
marker, then ":---" repeated col_span - 1 times when col_span exceeds 1. -/
def alignment_entries (hdr : List TableCell) : List String :=
  hdr.foldl (fun alignments cell =>
    alignments ++ [alignEntry cell] ++
      (if cell.col_span > 1 then List.replicate (cell.col_span - 1).toNat ":---" else [])) []

/-- table.py table_to_markdown. -/
def table_to_markdown (table : Table) : String :=
  if table.cells.isEmpty then ""
  else
    let header_row := format_row table.cells.headI
    let align_row :=
      "| " ++ String.intercalate " | " (alignment_entries table.cells.headI) ++ " |"
    let data_rows := (table.cells.drop 1).map format_row
    String.intercalate "\n" (header_row :: align_row :: data_rows)

/-- The cell-entry lists underlying the rendered Markdown lines of
table_to_markdown, in order: header line, alignment line, data lines.  The
k-th rendered line is assembled from the k-th list, one cell per entry. -/
def markdown_line_cells (table : Table) : List (List String) :=
  if table.cells.isEmpty then []
  else format_row_parts table.cells.headI :: alignment_entries table.cells.headI ::
    (table.cells.drop 1).map format_row_parts

/-- The line classification of detect_tables_from_borders: horizontal when
height is within 2 units and width at least min_border_length (coordinates
normalised), else vertical symmetrically, else discarded. -/
def classifyLines (metrics : TableMetrics) (paths : List (ℚ × ℚ × ℚ × ℚ)) :
    List (ℚ × ℚ × ℚ × ℚ) × List (ℚ × ℚ × ℚ × ℚ) :=
  paths.foldl (fun acc r =>
    let (x0, y0, x1, y1) := r
    if qabs (y1 - y0) ≤ 2 ∧ qabs (x1 - x0) ≥ metrics.min_border_length then
      (acc.1 ++ [(min x0 x1, y0, max x0 x1, y1)], acc.2)
    else if qabs (x1 - x0) ≤ 2 ∧ qabs (y1 - y0) ≥ metrics.min_border_length then
      (acc.1, acc.2 ++ [(x0, min y0 y1, x1, max y0 y1)])
    else acc) ([], [])

/-- table.py detect_tables_from_borders.  An engine failure while reading
the drawings (or, inside extract_text_blocks, the text) is caught and yields
the empty list. -/
def detect_tables_from_borders (page : PageData) (metrics : TableMetrics) : List Table :=
  match page.drawings with
  | Except.error _ => []
  | Except.ok paths =>
    if (classifyLines metrics paths).1.isEmpty ∨ (classifyLines metrics paths).2.isEmpty
    then []
    else
      match detect_table_from_lines (classifyLines metrics paths).1
        (classifyLines metrics paths).2 with
      | none => []
      | some tbl =>
        if (extract_text_blocks page (some tbl)).isEmpty then []
        else if validate_table_cells
          { tbl with cells := convert_blocks_to_cells (extract_text_blocks page (some tbl)) }
          metrics
        then [{ tbl with
                cells := convert_blocks_to_cells (extract_text_blocks page (some tbl)) }]
        else []

/-- The bound update lines of detect_tables_from_alignment (they precede the
add_block_to_table call; a 0 coordinate counts as unset). -/
def detectorBoundsUpdate (t : Table) (block : TextBlock) : Table :=
  { t with
    x0 := if t.x0 = 0 ∨ block.x0 < t.x0 then block.x0 else t.x0,
    y0 := if t.y0 = 0 ∨ block.y0 < t.y0 then block.y0 else t.y0,
    x1 := max t.x1 block.x1,
    y1 := max t.y1 block.y1 }

/-- The accumulator loop of detect_tables_from_alignment: rows open or
extend the current candidate; the first non-row closes it, keeping it only
when valid; the last candidate is flushed the same way. -/
def alignLoop (metrics : TableMetrics) :
    List TextBlock → Option Table → List Table → List Table
  | [], cur, tables =>
    match cur with
    | some t => if validate_table t metrics then tables ++ [t] else tables
    | none => tables
  | b :: bs, cur, tables =>
    if is_potential_table_row b metrics then
      let t0 := match cur with
        | none => ({} : Table)
        | some t => t
      alignLoop metrics bs (some (add_block_to_table (detectorBoundsUpdate t0 b) b metrics)) tables
    else
      match cur with
      | some t =>
        alignLoop metrics bs none (if validate_table t metrics then tables ++ [t] else tables)
      | none => alignLoop metrics bs none tables

/-- table.py detect_tables_from_alignment. -/
def detect_tables_from_alignment (page : PageData) (metrics : TableMetrics) : List Table :=
  if (extract_text_blocks page none).isEmpty then []
  else alignLoop metrics (List.insertionSort blockLEyx (extract_text_blocks page none)) none []

/-- The per-page body of detect_tables: border detection first, the
alignment fallback when it found nothing. -/
def pageTables (metrics : TableMetrics) (page : PageData) : List Table :=
  if (detect_tables_from_borders page metrics).isEmpty
  then detect_tables_from_alignment page metrics
  else detect_tables_from_borders page metrics

/-- The pre-merge accumulation over the document's pages in detect_tables. -/
def allPageTables (metrics : TableMetrics) (pages : List PageData) : List Table :=
  (pages.map (pageTables metrics)).flatten

/-- table.py detect_tables over a document given as its pages. -/
def detect_tables (pages : List PageData) (metrics : TableMetrics) : List Table :=
  merge_overlapping_tables (allPageTables metrics pages)

/-- One cell's bbox lies inside the table's bbox. -/
def cellInside (t : Table) (c : TableCell) : Prop :=
  t.x0 ≤ c.x0 ∧ t.y0 ≤ c.y0 ∧ c.x1 ≤ t.x1 ∧ c.y1 ≤ t.y1

instance : ∀ t c, Decidable (cellInside t c) := fun t c => by
  unfold cellInside; infer_instance

/-- The table's bbox encloses the bbox of every cell of every row. -/
def TableEncloses (t : Table) : Prop :=
  ∀ row ∈ t.cells, ∀ c ∈ row, cellInside t c

instance : DecidablePred TableEncloses := fun t => by
  unfold TableEncloses; infer_instance

/-- Modelled from claim C5's reading of the spec: pipe-separated segments of
the stripped text, each trimmed, with only the empty trailing ones
dropped. -/
def claim_pipe_row (block : TextBlock) : List String :=
  let segs := (pySplitChar '|' (pyStrip block.text)).map pyStrip
  (segs.reverse.dropWhile (fun s => decide (s = ""))).reverse

/-- The number of rendered cells one table cell occupies: one per unit of
col_span, at least one. -/
def effSpan (cell : TableCell) : ℕ :=
  if cell.col_span > 1 then cell.col_span.toNat else 1

/-- The rendered-cell count of a whole row. -/
def rowSpanTotal (row : List TableCell) : ℕ := (row.map effSpan).sum

/-
Helper lemmas (shared between claims).
-/

theorem alignment_entries_eq (hdr : List TableCell) :
    alignment_entries hdr = hdr.flatMap alignCellEntries := by
  unfold alignment_entries
  have key : ∀ (l : List TableCell) (init : List String),
      l.foldl (fun alignments cell => alignments ++ [alignEntry cell] ++
        (if cell.col_span > 1 then List.replicate (cell.col_span - 1).toNat ":---"
         else [])) init
      = init ++ l.flatMap alignCellEntries := by
    intro l
    induction l with
    | nil => simp
    | cons c cs ih =>
      intro init
      rw [List.foldl_cons, ih]
      by_cases h : c.col_span > 1
      · simp [alignCellEntries, h, List.append_assoc]
      · have h0 : (c.col_span - 1).toNat = 0 := by omega
        simp [alignCellEntries, h, h0]
  simpa using key hdr []

theorem length_formatCellEntries (cell : TableCell) :
    (formatCellEntries cell).length = effSpan cell := by
  unfold formatCellEntries effSpan
  by_cases h : cell.col_span > 1
  · simp only [h, if_true, List.length_cons, List.length_replicate]
    omega
  · simp [h]

theorem length_alignCellEntries (cell : TableCell) :
    (alignCellEntries cell).length = effSpan cell := by
  unfold alignCellEntries effSpan
  by_cases h : cell.col_span > 1
  · simp only [List.length_cons, List.length_replicate, h, if_true]
    omega
  · have h0 : (cell.col_span - 1).toNat = 0 := by omega
    simp [h, h0]

theorem length_format_row_parts (row : List TableCell) :
    (format_row_parts row).length = rowSpanTotal row := by
  unfold format_row_parts rowSpanTotal
  induction row with
  | nil => rfl
  | cons c cs ih =>
    rw [List.flatMap_cons, List.length_append, length_formatCellEntries, ih,
      List.map_cons, List.sum_cons]

theorem length_alignment_entries (hdr : List TableCell) :
    (alignment_entries hdr).length = rowSpanTotal hdr := by
  rw [alignment_entries_eq]
  unfold rowSpanTotal
  induction hdr with
  | nil => rfl
  | cons c cs ih =>
    rw [List.flatMap_cons, List.length_append, length_alignCellEntries, ih,
      List.map_cons, List.sum_cons]

theorem filterMap_if_map {α β : Type} (p : α → Prop) [DecidablePred p] (g : α → β)
    (l : List α) :
    l.filterMap (fun a => if p a then some (g a) else none) =
      (l.filter (fun a => decide (p a))).map g := by
  induction l with
  | nil => rfl
  | cons a l ih => by_cases h : p a <;> simp [h, ih]

theorem pipeRowCells_contents (block : TextBlock) :
    (pipeRowCells block).map (fun c => c.content) =
      ((pySplitChar '|' (pyStrip block.text)).filter
        (fun s => decide (pyStrip s ≠ ""))).map pyStrip := by
  unfold pipeRowCells pipeCellOf
  rw [filterMap_if_map (fun s => pyStrip s ≠ "")
    (fun s => ({ content := pyStrip s, x0 := block.x0, x1 := block.x1,
                 y0 := block.y0, y1 := block.y1 } : TableCell))]
  rw [List.map_map]
  rfl

theorem pipeRowCells_bbox (block : TextBlock) :
    ∀ c ∈ pipeRowCells block,
      c.x0 = block.x0 ∧ c.x1 = block.x1 ∧ c.y0 = block.y0 ∧ c.y1 = block.y1 := by
  intro c hc
  unfold pipeRowCells at hc
  obtain ⟨s, _, hsome⟩ := List.mem_filterMap.mp hc
  unfold pipeCellOf at hsome
  split_ifs at hsome with hcond
  · cases hsome
    exact ⟨rfl, rfl, rfl, rfl⟩

theorem pipeRowCells_eq_nil (block : TextBlock)
    (h : ∀ seg ∈ pySplitChar '|' (pyStrip block.text), pyStrip seg = "") :
    pipeRowCells block = [] := by
  unfold pipeRowCells
  rw [List.filterMap_eq_nil_iff]
  intro s hs
  unfold pipeCellOf
  rw [if_neg]
  simpa using h s hs

theorem validate_table_cells_iff (t : Table) (m : TableMetrics) :
    validate_table_cells t m = true ↔
      (2 ≤ t.cells.length ∧ (∀ row ∈ t.cells, 2 ≤ row.length) ∧
        ∀ row ∈ t.cells, row.length = t.cells.headI.length) := by
  unfold validate_table_cells
  cases hc : t.cells with
  | nil => simp
  | cons r0 rest =>
    simp only [List.isEmpty_cons, Bool.false_eq_true, if_false, List.headI_cons]
    by_cases h2 : (r0 :: rest).length < 2
    · rw [if_pos h2]
      apply iff_of_false (by simp)
      intro hcon
      omega
    · rw [if_neg h2]
      by_cases h3 : ((r0 :: rest).any fun row => decide (row.length < 2)) = true
      · rw [if_pos h3]
        apply iff_of_false (by simp)
        intro hcon
        obtain ⟨row, hrow, hlt⟩ := List.any_eq_true.mp h3
        have h5 := hcon.2.1 row hrow
        simp at hlt
        omega
      · rw [if_neg h3]
        by_cases h4 : ((List.drop 1 (r0 :: rest)).any
            fun row => decide (row.length ≠ r0.length)) = true
        · rw [if_pos h4]
          apply iff_of_false (by simp)
          intro hcon
          obtain ⟨row, hrow, hne⟩ := List.any_eq_true.mp h4
          have h6 := hcon.2.2 row (List.mem_of_mem_drop hrow)
          simp at hne
          omega
        · rw [if_neg h4]
          apply iff_of_true rfl
          simp only [List.any_eq_true, not_exists, not_and] at h3 h4
          refine ⟨by omega, ?_, ?_⟩
          · intro row hrow
            have h7 := h3 row hrow
            simp at h7
            omega
          · intro row hrow
            rcases List.mem_cons.mp hrow with rfl | htail
            · rfl
            · have h8 := h4 row (by simpa using htail)
              simp at h8
              omega

/-- C1: validate_table accepts a table exactly when its bbox width is at
least min_width, its bbox height at least min_height, it has at least two
rows, every row has at least two cells, and all rows share the first row's
cell count; and (in particular) a table with fewer than two rows, or with
any row of fewer than two cells, is rejected whatever its bbox is. -/
theorem C1_validate_table_iff :
    (∀ (t : Table) (m : TableMetrics),
      validate_table t m = true ↔
        (m.min_width ≤ t.x1 - t.x0 ∧ m.min_height ≤ t.y1 - t.y0 ∧
         2 ≤ t.cells.length ∧ (∀ row ∈ t.cells, 2 ≤ row.length) ∧
         ∀ row ∈ t.cells, row.length = t.cells.headI.length)) ∧
    (∀ (t : Table) (m : TableMetrics),
      (t.cells.length < 2 ∨ ∃ row ∈ t.cells, row.length < 2) →
        validate_table t m = false) := by
  have key : ∀ (t : Table) (m : TableMetrics),
      validate_table t m = true ↔
        (m.min_width ≤ t.x1 - t.x0 ∧ m.min_height ≤ t.y1 - t.y0 ∧
         2 ≤ t.cells.length ∧ (∀ row ∈ t.cells, 2 ≤ row.length) ∧
         ∀ row ∈ t.cells, row.length = t.cells.headI.length) := by
    intro t m
    unfold validate_table
    by_cases h1 : t.x1 - t.x0 < m.min_width ∨ t.y1 - t.y0 < m.min_height
    · rw [if_pos h1]
      apply iff_of_false (by simp)
      intro hcon
      rcases h1 with h | h
      · exact absurd hcon.1 (not_le.mpr h)
      · exact absurd hcon.2.1 (not_le.mpr h)
    · rw [if_neg h1]
      push_neg at h1
      by_cases h2 : validate_table_cells t m = true
      · rw [if_neg (not_not_intro h2)]
        apply iff_of_true rfl
        obtain ⟨ha, hb, hc⟩ := (validate_table_cells_iff t m).mp h2
        exact ⟨h1.1, h1.2, ha, hb, hc⟩
      · rw [if_pos h2]
        apply iff_of_false (by simp)
        intro hcon
        exact h2 ((validate_table_cells_iff t m).mpr
          ⟨hcon.2.2.1, hcon.2.2.2.1, hcon.2.2.2.2⟩)
  refine ⟨key, ?_⟩
  intro t m hbad
  cases hv : validate_table t m with
  | false => rfl
  | true =>
    exfalso
    obtain ⟨_, _, hlen, hrows, _⟩ := (key t m).mp hv
    rcases hbad with h | ⟨row, hrow, hlt⟩
    · omega
    · have := hrows row hrow
      omega

/-- C2 (amended): in the Markdown produced by table_to_markdown, the header
line and the alignment line always carry the same number of cells, and a
data line carries that number exactly when its own rendered-cell total
(each cell counted once per unit of col_span, at least once) equals the
header row's; so under the hypothesis that every row's total equals the
header's, every line has the header line's cell count. -/
theorem C2_markdown_cell_counts (t : Table)
    (h : ∀ row ∈ t.cells, rowSpanTotal row = rowSpanTotal t.cells.headI) :
    ∀ line ∈ markdown_line_cells t,
      line.length = (format_row_parts t.cells.headI).length := by
  unfold markdown_line_cells
  by_cases hc : t.cells.isEmpty
  · simp [hc]
  · rw [if_neg hc]
    intro line hl
    rcases List.mem_cons.mp hl with rfl | hl2
    · rfl
    · rcases List.mem_cons.mp hl2 with rfl | hl3
      · rw [length_alignment_entries, length_format_row_parts]
      · obtain ⟨row, hrow, rfl⟩ := List.mem_map.mp hl3
        rw [length_format_row_parts, length_format_row_parts]
        exact h row (List.mem_of_mem_drop hrow)

def tblC2 : Table :=
  { cells := [[{ content := "a" }, { content := "b" }], [{ content := "c" }]],
    x0 := 0, y0 := 0, x1 := 100, y1 := 100 }

/-- C2 (counterexample): on a table whose second row has fewer cells than
the header row, the data line of the Markdown has 1 cell while the header
line has 2, so not every line has the header line's cell count. -/
theorem C2_counterexample :
    markdown_line_cells tblC2 = [["a", "b"], [":---", ":---"], ["c"]] ∧
    ¬ (∀ line ∈ markdown_line_cells tblC2,
        line.length = (format_row_parts tblC2.cells.headI).length) := by
  constructor
  · decide
  · decide

/-- C2 (witness): the amended theorem applied to a concrete rectangular
table. -/
theorem C2_markdown_cell_counts_witness :
    (alignment_entries tblC2.cells.headI).length =
      (format_row_parts tblC2.cells.headI).length :=
  C2_markdown_cell_counts
    { cells := [tblC2.cells.headI], x0 := 0, y0 := 0, x1 := 100, y1 := 100 }
    (by decide) (alignment_entries tblC2.cells.headI) (by decide)

def blkC4 : TextBlock :=
  { text := "x y   z", x0 := 0, y0 := 0, x1 := 100, y1 := 10, font_size := 10,
    font := "" }

/-- C4: the code and the claimed rule disagree at the block "x y   z" (no
pipe, no digits, inter-word whitespace runs of lengths 1 and 3).  The
claimed rule rejects it: runs 1 and 3 differ by more than one character.
The code accepts it: its last branch measures the non-whitespace segments
of text.split(words[0]) — here the single segment " y   z" — whose lengths
are trivially mutually within 1. -/
theorem C4_divergence :
    is_potential_table_row blkC4 defaultMetrics = true ∧ ¬ spec_row_rules blkC4 := by
  constructor
  · decide
  · decide

def tblC6 : Table :=
  { cells := [[{ content := "a", alignment := "center", col_span := 2 },
               { content := "b" }],
              [{ content := "c" }, { content := "d" }, { content := "e" }]],
    x0 := 0, y0 := 0, x1 := 100, y1 := 100 }

/-- C6 (counterexample): for a center-aligned header cell with col_span 2,
the alignment row of table_to_markdown holds that cell's own entry ":---:"
once, not twice — the filler entry is ":---". -/
theorem C6_counterexample :
    alignment_entries tblC6.cells.headI = [":---:", ":---", ":---"] ∧
    (alignment_entries tblC6.cells.headI).count ":---:" = 1 ∧
    ¬ (alignment_entries tblC6.cells.headI).count ":---:" = 2 := by
  refine ⟨by decide, by decide, by decide⟩

/-- C6 (amended): the alignment row maps each header cell to ":---:" when
its alignment is "center", "---:" when "right", and ":---" otherwise; a
cell with col_span n > 1 contributes its own entry once, followed by n - 1
":---" filler entries (not n copies of its own entry). -/
theorem C6_alignment_row (hdr : List TableCell) :
    alignment_entries hdr = hdr.flatMap (fun cell =>
      (if cell.alignment = "center" then ":---:"
       else if cell.alignment = "right" then "---:" else ":---") ::
      List.replicate (cell.col_span - 1).toNat ":---") := by
  rw [alignment_entries_eq]
  unfold alignCellEntries alignEntry
  rfl

theorem fillRow_length_ge (bounds : List ℚ) (bs : List TextBlock) :
    ∀ col, bounds.length + 1 - col ≤ (fillRow bounds bs col).length := by
  induction bs with
  | nil =>
    intro col
    simp [fillRow]
  | cons b bs ih =>
    intro col
    simp only [fillRow, List.length_append, List.length_replicate, List.length_cons]
    have h2 := ih (col + (((bounds.drop col).takeWhile
      (fun m => decide (b.x0 > m))).length) + 1)
    omega

/-- C7 (amended): every row of the grid built by convert_blocks_to_cells
has at least boundary_count + 1 cells, where boundary_count is the number
of column boundaries (midpoints between consecutive distinct x-edges):
sparse rows are padded with empty cells at skipped positions and at the row
end up to that count, but a row whose blocks outnumber the column slots
exceeds it. -/
theorem C7_rows_at_least (blocks : List TextBlock) :
    ∀ row ∈ convert_blocks_to_cells blocks,
      (columnBoundsOf blocks).length + 1 ≤ row.length := by
  unfold convert_blocks_to_cells
  by_cases hb : blocks.isEmpty
  · simp [hb]
  · rw [if_neg hb]
    intro row hr
    obtain ⟨rb, _, rfl⟩ := List.mem_map.mp hr
    have h2 := fillRow_length_ge (columnBoundsOf blocks) rb 0
    omega

def blkC7 : TextBlock :=
  { text := "a", x0 := 0, y0 := 0, x1 := 10, y1 := 5, font_size := 10, font := "" }

/-- C7 (counterexample): three coincident blocks in one row give a single
column boundary (boundary_count + 1 = 2), yet the produced row has 3 cells,
so not every row has exactly boundary_count + 1 cells. -/
theorem C7_counterexample :
    (columnBoundsOf [blkC7, blkC7, blkC7]).length + 1 = 2 ∧
    (convert_blocks_to_cells [blkC7, blkC7, blkC7]).map List.length = [3] := by
  refine ⟨by decide, by decide⟩

instance : IsTotal Table tableLEkey := ⟨by
  intro a b
  unfold tableLEkey
  rcases lt_trichotomy a.y0 b.y0 with h | h | h
  · exact Or.inl (Or.inl h)
  · rcases le_total a.x0 b.x0 with hx | hx
    · exact Or.inl (Or.inr ⟨h, hx⟩)
    · exact Or.inr (Or.inr ⟨h.symm, hx⟩)
  · exact Or.inr (Or.inl h)⟩

instance : IsTrans Table tableLEkey := ⟨by
  intro a b c hab hbc
  unfold tableLEkey at hab hbc ⊢
  rcases hab with h1 | ⟨h1, h1x⟩ <;> rcases hbc with h2 | ⟨h2, h2x⟩
  · exact Or.inl (h1.trans h2)
  · exact Or.inl (h2 ▸ h1)
  · exact Or.inl (h1 ▸ h2)
  · exact Or.inr ⟨h1.trans h2, h1x.trans h2x⟩⟩

theorem mergeLoop_of_pairwise (rest : List Table) :
    ∀ current,
      List.Pairwise (fun a b => ¬ tablesOverlap a b ∧ ¬ tablesOverlap b a)
        (current :: rest) →
      mergeLoop current rest = current :: rest := by
  induction rest with
  | nil => intro c _; rfl
  | cons nxt rest ih =>
    intro c h
    have hno : ¬ tablesOverlap c nxt :=
      ((List.pairwise_cons.mp h).1 nxt (by simp)).1
    have htail := (List.pairwise_cons.mp h).2
    simp only [mergeLoop, if_neg hno]
    rw [ih nxt htail]

/-- C3: on a list of pairwise non-overlapping tables (the merge test holds
for no ordered pair), merge_overlapping_tables returns exactly the input
tables, each unchanged, stably sorted by the key (y0, x0); the output is a
permutation of the input, is sorted, and merging again returns it
unchanged (idempotence). -/
theorem C3_merge_nonoverlapping (tables : List Table)
    (h : List.Pairwise (fun a b => ¬ tablesOverlap a b ∧ ¬ tablesOverlap b a) tables) :
    merge_overlapping_tables tables = List.insertionSort tableLEkey tables ∧
    (merge_overlapping_tables tables).Perm tables ∧
    List.Sorted tableLEkey (merge_overlapping_tables tables) ∧
    merge_overlapping_tables (merge_overlapping_tables tables) =
      merge_overlapping_tables tables := by
  have hperm := List.perm_insertionSort tableLEkey tables
  have hps := (List.Perm.pairwise_iff (fun hab => ⟨hab.2, hab.1⟩) hperm).mpr h
  have hmain : merge_overlapping_tables tables = List.insertionSort tableLEkey tables := by
    unfold merge_overlapping_tables
    cases hs : List.insertionSort tableLEkey tables with
    | nil => rfl
    | cons t rest =>
      rw [hs] at hps
      exact mergeLoop_of_pairwise rest t hps
  have hsorted : List.Sorted tableLEkey (List.insertionSort tableLEkey tables) :=
    List.sorted_insertionSort tableLEkey tables
  refine ⟨hmain, hmain ▸ hperm, hmain ▸ hsorted, ?_⟩
  rw [hmain]
  unfold merge_overlapping_tables
  rw [List.Sorted.insertionSort_eq hsorted]
  cases hs : List.insertionSort tableLEkey tables with
  | nil => rfl
  | cons t rest =>
    rw [hs] at hps
    exact mergeLoop_of_pairwise rest t hps

def tblC3a : Table :=
  { cells := [[{ content := "a" }, { content := "b" }]],
    x0 := 0, y0 := 0, x1 := 10, y1 := 10 }

def tblC3b : Table :=
  { cells := [[{ content := "c" }, { content := "d" }]],
    x0 := 50, y0 := 50, x1 := 60, y1 := 60 }

/-- C3 (witness): the theorem applied to two concrete non-overlapping
tables, given out of (y0, x0) order. -/
theorem C3_merge_nonoverlapping_witness :
    merge_overlapping_tables [tblC3b, tblC3a] =
      List.insertionSort tableLEkey [tblC3b, tblC3a] :=
  (C3_merge_nonoverlapping [tblC3b, tblC3a] (by decide)).1

/-- C5 (amended): for a block whose stripped text contains a pipe and
splits into at least one segment with content, add_block_to_table appends
exactly one row: the pipe-separated segments trimmed, with every
whitespace-only segment dropped wherever it occurs (not only trailing
ones), each kept cell carrying the block's bbox. -/
theorem C5_add_block_pipe (t : Table) (block : TextBlock) (m : TableMetrics)
    (h1 : pyContainsChar (pyStrip block.text) '|' = true)
    (h2 : pipeRowCells block ≠ []) :
    (add_block_to_table t block m).cells = t.cells ++ [pipeRowCells block] ∧
    (pipeRowCells block).map (fun c => c.content) =
      ((pySplitChar '|' (pyStrip block.text)).filter
        (fun s => decide (pyStrip s ≠ ""))).map pyStrip ∧
    ∀ c ∈ pipeRowCells block,
      c.x0 = block.x0 ∧ c.x1 = block.x1 ∧ c.y0 = block.y0 ∧ c.y1 = block.y1 := by
  refine ⟨?_, pipeRowCells_contents block, pipeRowCells_bbox block⟩
  have hcells : addBlockCells block m = pipeRowCells block := by
    unfold addBlockCells
    rw [if_pos h1]
  unfold add_block_to_table
  rw [hcells, if_neg (by simpa using h2)]
  rfl

def blkC5 : TextBlock :=
  { text := "a||b", x0 := 1, y0 := 2, x1 := 3, y1 := 4, font_size := 10, font := "" }

def tblC5 : Table := { x0 := 1, y0 := 1, x1 := 9, y1 := 9 }

/-- C5 (counterexample): on the text "a||b" the appended row has the cells
"a", "b" — the empty segment between the two non-empty segments is dropped
— while the claimed conversion (trim, drop only empty trailing cells)
yields "a", "", "b". -/
theorem C5_counterexample :
    ((add_block_to_table tblC5 blkC5 defaultMetrics).cells).map
      (fun row => row.map (fun c => c.content)) = [["a", "b"]] ∧
    claim_pipe_row blkC5 = ["a", "", "b"] := by
  refine ⟨by decide, by decide⟩

def blkC5w : TextBlock :=
  { text := "a|b", x0 := 1, y0 := 2, x1 := 3, y1 := 4, font_size := 10, font := "" }

/-- C5 (witness): the amended theorem applied to a concrete block. -/
theorem C5_add_block_pipe_witness :
    (add_block_to_table tblC5 blkC5w defaultMetrics).cells =
      tblC5.cells ++ [pipeRowCells blkC5w] :=
  (C5_add_block_pipe tblC5 blkC5w defaultMetrics (by decide) (by decide)).1

theorem addBlockBounds_contains (t : Table) (b : TextBlock) :
    (addBlockBounds t b).x0 ≤ b.x0 ∧ (addBlockBounds t b).y0 ≤ b.y0 ∧
    b.x1 ≤ (addBlockBounds t b).x1 ∧ b.y1 ≤ (addBlockBounds t b).y1 := by
  refine ⟨?_, ?_, ?_, ?_⟩
  · show (if t.x0 ≠ 0 then min t.x0 b.x0 else b.x0) ≤ b.x0
    split_ifs
    · exact min_le_right _ _
    · exact le_refl _
  · show (if t.y0 ≠ 0 then min t.y0 b.y0 else b.y0) ≤ b.y0
    split_ifs
    · exact min_le_right _ _
    · exact le_refl _
  · show b.x1 ≤ (if t.x1 ≠ 0 then max t.x1 b.x1 else b.x1)
    split_ifs
    · exact le_max_right _ _
    · exact le_refl _
  · show b.y1 ≤ (if t.y1 ≠ 0 then max t.y1 b.y1 else b.y1)
    split_ifs
    · exact le_max_right _ _
    · exact le_refl _

theorem add_block_rows_nonempty (t : Table) (b : TextBlock) (m : TableMetrics)
    (h : ∀ row ∈ t.cells, row ≠ []) :
    ∀ row ∈ (add_block_to_table t b m).cells, row ≠ [] := by
  intro row hr
  unfold add_block_to_table at hr
  split at hr
  · exact h row hr
  · rename_i hne
    rcases List.mem_append.mp hr with h2 | h2
    · exact h row h2
    · have heq : row = addBlockCells b m := by simpa using h2
      rw [heq]
      intro hnil
      exact hne (by simp [hnil])

theorem alignLoop_rows_nonempty (m : TableMetrics) (bs : List TextBlock) :
    ∀ (cur : Option Table) (acc : List Table),
      (∀ t ∈ acc, ∀ row ∈ t.cells, row ≠ []) →
      (∀ t, cur = some t → ∀ row ∈ t.cells, row ≠ []) →
      ∀ t ∈ alignLoop m bs cur acc, ∀ row ∈ t.cells, row ≠ [] := by
  induction bs with
  | nil =>
    intro cur acc hacc hcur t ht
    cases cur with
    | none => exact hacc t ht
    | some t0 =>
      simp only [alignLoop] at ht
      by_cases hv : validate_table t0 m = true
      · rw [if_pos hv] at ht
        rcases List.mem_append.mp ht with h2 | h2
        · exact hacc t h2
        · have heq : t = t0 := by simpa using h2
          subst heq
          exact hcur t rfl
      · rw [if_neg hv] at ht
        exact hacc t ht
  | cons b bs ih =>
    intro cur acc hacc hcur t ht
    cases cur with
    | none =>
      simp only [alignLoop] at ht
      by_cases hrow : is_potential_table_row b m = true
      · rw [if_pos hrow] at ht
        refine ih _ _ hacc ?_ t ht
        intro t2 ht2
        cases ht2
        apply add_block_rows_nonempty
        intro row hr
        simp [detectorBoundsUpdate] at hr
      · rw [if_neg hrow] at ht
        exact ih none acc hacc (by intro t2 ht2; simp at ht2) t ht
    | some tc =>
      simp only [alignLoop] at ht
      by_cases hrow : is_potential_table_row b m = true
      · rw [if_pos hrow] at ht
        refine ih _ _ hacc ?_ t ht
        intro t2 ht2
        cases ht2
        apply add_block_rows_nonempty
        intro row hr
        have hmem : row ∈ tc.cells := by simpa [detectorBoundsUpdate] using hr
        exact hcur tc rfl row hmem
      · rw [if_neg hrow] at ht
        by_cases hv : validate_table tc m = true
        · rw [if_pos hv] at ht
          refine ih none _ ?_ (by intro t2 ht2; simp at ht2) t ht
          intro t2 ht2
          rcases List.mem_append.mp ht2 with h2 | h2
          · exact hacc t2 h2
          · have heq : t2 = tc := by simpa using h2
            subst heq
            exact hcur t2 rfl
        · rw [if_neg hv] at ht
          exact ih none acc hacc (by intro t2 ht2; simp at ht2) t ht

/-- C10: for a block whose stripped text contains a pipe but all of whose
pipe-separated segments are whitespace-only, add_block_to_table leaves the
table's rows unchanged while its updated bounding box still includes the
block's bbox; and consequently no row of any table produced by
detect_tables_from_alignment is an empty list of cells. -/
theorem C10_blank_pipe_row :
    (∀ (t : Table) (block : TextBlock) (m : TableMetrics),
      pyContainsChar (pyStrip block.text) '|' = true →
      (∀ seg ∈ pySplitChar '|' (pyStrip block.text), pyStrip seg = "") →
      (add_block_to_table t block m).cells = t.cells ∧
      (add_block_to_table t block m).x0 ≤ block.x0 ∧
      (add_block_to_table t block m).y0 ≤ block.y0 ∧
      block.x1 ≤ (add_block_to_table t block m).x1 ∧
      block.y1 ≤ (add_block_to_table t block m).y1) ∧
    (∀ (page : PageData) (m : TableMetrics),
      ∀ t ∈ detect_tables_from_alignment page m, ∀ row ∈ t.cells, row ≠ []) := by
  constructor
  · intro t block m h1 h2
    have hcells : addBlockCells block m = [] := by
      unfold addBlockCells
      rw [if_pos h1]
      exact pipeRowCells_eq_nil block h2
    have hres : add_block_to_table t block m = addBlockBounds t block := by
      unfold add_block_to_table
      rw [hcells]
      rfl
    rw [hres]
    obtain ⟨ha, hb, hc, hd⟩ := addBlockBounds_contains t block
    exact ⟨rfl, ha, hb, hc, hd⟩
  · intro page m t ht row hr
    unfold detect_tables_from_alignment at ht
    by_cases hb : (extract_text_blocks page none).isEmpty
    · rw [if_pos hb] at ht
      simp at ht
    · rw [if_neg hb] at ht
      exact alignLoop_rows_nonempty m _ none [] (by simp)
        (by intro t2 ht2; simp at ht2) t ht row hr

def blkC10 : TextBlock :=
  { text := "| |", x0 := 2, y0 := 3, x1 := 4, y1 := 5, font_size := 10, font := "" }

/-- C10 (witness): the frame part of the theorem applied to a concrete
blank pipe row. -/
theorem C10_blank_pipe_row_witness :
    (add_block_to_table tblC5 blkC10 defaultMetrics).cells = tblC5.cells ∧
    (add_block_to_table tblC5 blkC10 defaultMetrics).x0 ≤ blkC10.x0 :=
  ⟨(C10_blank_pipe_row.1 tblC5 blkC10 defaultMetrics (by decide) (by decide)).1,
   (C10_blank_pipe_row.1 tblC5 blkC10 defaultMetrics (by decide) (by decide)).2.1⟩

theorem detect_tables_from_borders_error (p : PageData) (m : TableMetrics) (e : String)
    (h : p.drawings = Except.error e ∨ p.textBlocks = Except.error e) :
    detect_tables_from_borders p m = [] := by
  rcases h with h | h
  · simp only [detect_tables_from_borders, h]
  · have hblocks : ∀ ot, extract_text_blocks p ot = [] := by
      intro ot
      unfold extract_text_blocks
      rw [h]
    cases hd : p.drawings with
    | error e2 => simp only [detect_tables_from_borders, hd]
    | ok paths =>
      simp only [detect_tables_from_borders, hd, hblocks, List.isEmpty_nil, if_true]
      by_cases h1 : (classifyLines m paths).1.isEmpty ∨ (classifyLines m paths).2.isEmpty
      · rw [if_pos h1]
      · rw [if_neg h1]
        cases hdet : detect_table_from_lines (classifyLines m paths).1
          (classifyLines m paths).2 with
        | none => rfl
        | some tbl => rfl

/-- C9: when the document engine fails while detect_tables_from_borders
reads a page's drawings or text, that detector returns the empty list for
the page; in detect_tables' per-page accumulation the failing page then
contributes exactly its alignment-fallback result, and the pages before and
after it are processed exactly as they would be otherwise (no abort). -/
theorem C9_page_failure_isolated (pages1 pages2 : List PageData) (p : PageData)
    (m : TableMetrics) (e : String)
    (h : p.drawings = Except.error e ∨ p.textBlocks = Except.error e) :
    detect_tables_from_borders p m = [] ∧
    allPageTables m (pages1 ++ p :: pages2) =
      allPageTables m pages1 ++ detect_tables_from_alignment p m ++
        allPageTables m pages2 := by
  have hb := detect_tables_from_borders_error p m e h
  refine ⟨hb, ?_⟩
  unfold allPageTables
  rw [List.map_append, List.map_cons, List.flatten_append, List.flatten_cons]
  have hp : pageTables m p = detect_tables_from_alignment p m := by
    unfold pageTables
    rw [hb]
    rfl
  rw [hp]
  exact (List.append_assoc _ _ _).symm

def pFailC9 : PageData := { drawings := Except.error "boom", textBlocks := Except.ok [] }

/-- C9 (witness): the theorem applied to a one-page document whose page
fails on get_drawings. -/
theorem C9_page_failure_isolated_witness :
    detect_tables_from_borders pFailC9 defaultMetrics = [] ∧
    allPageTables defaultMetrics ([] ++ pFailC9 :: []) =
      allPageTables defaultMetrics [] ++
        detect_tables_from_alignment pFailC9 defaultMetrics ++
        allPageTables defaultMetrics [] :=
  C9_page_failure_isolated [] [] pFailC9 defaultMetrics "boom" (Or.inl rfl)

theorem mergeTwo_encloses {a b : Table} (ha : TableEncloses a) (hb : TableEncloses b) :
    TableEncloses (mergeTwo a b) := by
  intro row hrow c hc
  have hrow2 : row ∈ a.cells ∨ row ∈ b.cells := by
    have hcells : (mergeTwo a b).cells =
        (if ¬ a.cells.isEmpty ∧ ¬ b.cells.isEmpty
         then a.cells ++ b.cells else a.cells) := rfl
    rw [hcells] at hrow
    split at hrow
    · rcases List.mem_append.mp hrow with h2 | h2
      · exact Or.inl h2
      · exact Or.inr h2
    · exact Or.inl hrow
  rcases hrow2 with hm | hm
  · obtain ⟨k1, k2, k3, k4⟩ := ha row hm c hc
    exact ⟨le_trans (min_le_left _ _) k1, le_trans (min_le_left _ _) k2,
           le_trans k3 (le_max_left _ _), le_trans k4 (le_max_left _ _)⟩
  · obtain ⟨k1, k2, k3, k4⟩ := hb row hm c hc
    exact ⟨le_trans (min_le_right _ _) k1, le_trans (min_le_right _ _) k2,
           le_trans k3 (le_max_right _ _), le_trans k4 (le_max_right _ _)⟩

theorem mergeLoop_encloses (rest : List Table) :
    ∀ current, TableEncloses current → (∀ u ∈ rest, TableEncloses u) →
      ∀ t ∈ mergeLoop current rest, TableEncloses t := by
  induction rest with
  | nil =>
    intro c hc _ t ht
    have heq : t = c := by simpa [mergeLoop] using ht
    subst heq
    exact hc
  | cons nxt rest ih =>
    intro c hc hrest t ht
    simp only [mergeLoop] at ht
    by_cases ho : tablesOverlap c nxt
    · rw [if_pos ho] at ht
      exact ih _ (mergeTwo_encloses hc (hrest nxt (by simp)))
        (fun u hu => hrest u (by simp [hu])) t ht
    · rw [if_neg ho] at ht
      rcases List.mem_cons.mp ht with rfl | ht2
      · exact hc
      · exact ih nxt (hrest nxt (by simp)) (fun u hu => hrest u (by simp [hu])) t ht2

theorem merge_preserves_encloses (tables : List Table)
    (h : ∀ t ∈ tables, TableEncloses t) :
    ∀ t ∈ merge_overlapping_tables tables, TableEncloses t := by
  unfold merge_overlapping_tables
  have hs : ∀ t ∈ List.insertionSort tableLEkey tables, TableEncloses t := fun t ht =>
    h t (((List.perm_insertionSort tableLEkey tables).mem_iff).mp ht)
  cases hsort : List.insertionSort tableLEkey tables with
  | nil => simp
  | cons t0 rest =>
    rw [hsort] at hs
    exact mergeLoop_encloses rest t0 (hs t0 (by simp)) (fun u hu => hs u (by simp [hu]))

def spanLen (ws : List String) : ℕ := (ws.map (fun w => w.length + 1)).sum

theorem spanLen_cons (w : String) (ws : List String) :
    spanLen (w :: ws) = w.length + 1 + spanLen ws := by
  simp only [spanLen, List.map_cons, List.sum_cons]

theorem currentPos_eq_spanLen (ws : List String) : currentPos ws = spanLen ws := by
  unfold currentPos spanLen
  have key : ∀ a, ws.foldl (fun acc w => acc + w.length + 1) a
      = a + (ws.map (fun w => w.length + 1)).sum := by
    induction ws with
    | nil => intro a; simp
    | cons w ws ih =>
      intro a
      rw [List.foldl_cons, ih, List.map_cons, List.sum_cons]
      omega
  simpa using key 0

theorem wordPosAux_bound (ws : List String) :
    ∀ acc, ∀ wp ∈ wordPosAux acc ws,
      acc ≤ wp.2 ∧ wp.2 + wp.1.length + 1 ≤ acc + spanLen ws := by
  induction ws with
  | nil =>
    intro acc wp hwp
    simp [wordPosAux] at hwp
  | cons w ws ih =>
    intro acc wp hwp
    simp only [wordPosAux] at hwp
    rcases List.mem_cons.mp hwp with rfl | h2
    · refine ⟨le_refl _, ?_⟩
      rw [spanLen_cons]
      dsimp only
      omega
    · obtain ⟨h1, h2b⟩ := ih (acc + w.length + 1) wp h2
      rw [spanLen_cons]
      omega

theorem wordRowCells_bbox (block : TextBlock) (words : List String)
    (hbx : block.x0 ≤ block.x1) :
    ∀ c ∈ wordRowCells block words,
      block.x0 ≤ c.x0 ∧ c.x1 ≤ block.x1 ∧ c.y0 = block.y0 ∧ c.y1 = block.y1 := by
  intro c hc
  unfold wordRowCells at hc
  obtain ⟨wp, hwp, rfl⟩ := List.mem_map.mp hc
  dsimp only
  obtain ⟨hlo, hhi⟩ := wordPosAux_bound words 0 wp hwp
  have hcp0 : 1 ≤ spanLen words := by omega
  have hcp : (0 : ℚ) < ((currentPos words : ℕ) : ℚ) := by
    rw [currentPos_eq_spanLen]
    exact_mod_cast hcp0
  have hd : (0 : ℚ) ≤ block.x1 - block.x0 := sub_nonneg.mpr hbx
  refine ⟨?_, ?_, rfl, rfl⟩
  · have ht : (0 : ℚ) ≤ (wp.2 : ℚ) / ((currentPos words : ℕ) : ℚ) :=
      div_nonneg (by positivity) hcp.le
    have hmul := mul_nonneg ht hd
    linarith
  · have ht1 : ((wp.2 : ℚ) + (wp.1.length : ℚ)) / ((currentPos words : ℕ) : ℚ) ≤ 1 := by
      rw [div_le_one hcp]
      have hle : wp.2 + wp.1.length ≤ currentPos words := by
        rw [currentPos_eq_spanLen]
        omega
      exact_mod_cast hle
    have hmul := mul_le_of_le_one_left hd ht1
    linarith

theorem add_block_coords (t : Table) (b : TextBlock) (m : TableMetrics) :
    (add_block_to_table t b m).x0 = (addBlockBounds t b).x0 ∧
    (add_block_to_table t b m).y0 = (addBlockBounds t b).y0 ∧
    (add_block_to_table t b m).x1 = (addBlockBounds t b).x1 ∧
    (add_block_to_table t b m).y1 = (addBlockBounds t b).y1 := by
  unfold add_block_to_table
  split
  · exact ⟨rfl, rfl, rfl, rfl⟩
  · exact ⟨rfl, rfl, rfl, rfl⟩

theorem add_block_cells_cases (t : Table) (b : TextBlock) (m : TableMetrics) :
    (add_block_to_table t b m).cells = t.cells ∨
    (add_block_to_table t b m).cells = t.cells ++ [addBlockCells b m] := by
  unfold add_block_to_table
  split
  · exact Or.inl rfl
  · exact Or.inr rfl

theorem addBlockBounds_le (t : Table) (b : TextBlock)
    (hx0 : t.x0 ≠ 0) (hy0 : t.y0 ≠ 0) (hx1 : t.x1 ≠ 0) (hy1 : t.y1 ≠ 0) :
    (addBlockBounds t b).x0 ≤ t.x0 ∧ (addBlockBounds t b).y0 ≤ t.y0 ∧
    t.x1 ≤ (addBlockBounds t b).x1 ∧ t.y1 ≤ (addBlockBounds t b).y1 := by
  refine ⟨?_, ?_, ?_, ?_⟩
  · show (if t.x0 ≠ 0 then min t.x0 b.x0 else b.x0) ≤ t.x0
    rw [if_pos hx0]
    exact min_le_left _ _
  · show (if t.y0 ≠ 0 then min t.y0 b.y0 else b.y0) ≤ t.y0
    rw [if_pos hy0]
    exact min_le_left _ _
  · show t.x1 ≤ (if t.x1 ≠ 0 then max t.x1 b.x1 else b.x1)
    rw [if_pos hx1]
    exact le_max_left _ _
  · show t.y1 ≤ (if t.y1 ≠ 0 then max t.y1 b.y1 else b.y1)
    rw [if_pos hy1]
    exact le_max_left _ _

theorem add_block_preserves_encloses (t : Table) (block : TextBlock) (m : TableMetrics)
    (henc : TableEncloses t) (hx0 : t.x0 ≠ 0) (hy0 : t.y0 ≠ 0)
    (hx1 : t.x1 ≠ 0) (hy1 : t.y1 ≠ 0) (hbx : block.x0 ≤ block.x1) :
    TableEncloses (add_block_to_table t block m) := by
  intro row hrow c hc
  obtain ⟨he1, he2, he3, he4⟩ := add_block_coords t block m
  obtain ⟨hb1, hb2, hb3, hb4⟩ := addBlockBounds_le t block hx0 hy0 hx1 hy1
  obtain ⟨hc1, hc2, hc3, hc4⟩ := addBlockBounds_contains t block
  have hrow2 : row ∈ t.cells ∨ row = addBlockCells block m := by
    rcases add_block_cells_cases t block m with h | h
    · rw [h] at hrow
      exact Or.inl hrow
    · rw [h] at hrow
      rcases List.mem_append.mp hrow with h2 | h2
      · exact Or.inl h2
      · exact Or.inr (by simpa using h2)
  rcases hrow2 with hmem | heq
  · obtain ⟨k1, k2, k3, k4⟩ := henc row hmem c hc
    exact ⟨by rw [he1]; exact le_trans hb1 k1,
           by rw [he2]; exact le_trans hb2 k2,
           by rw [he3]; exact le_trans k3 hb3,
           by rw [he4]; exact le_trans k4 hb4⟩
  · subst heq
    have hcc := hc
    unfold addBlockCells at hcc
    by_cases hp : pyContainsChar (pyStrip block.text) '|' = true
    · rw [if_pos hp] at hcc
      obtain ⟨p1, p2, p3, p4⟩ := pipeRowCells_bbox block c hcc
      refine ⟨?_, ?_, ?_, ?_⟩
      · rw [he1, p1]
        exact hc1
      · rw [he2, p3]
        exact hc2
      · rw [he3, p2]
        exact hc3
      · rw [he4, p4]
        exact hc4
    · rw [if_neg hp] at hcc
      by_cases hw : ((pySplitWS (pyStrip block.text)).length : ℤ) ≥ m.min_cols
      · rw [if_pos hw] at hcc
        obtain ⟨w1, w2, w3, w4⟩ := wordRowCells_bbox block _ hbx c hcc
        refine ⟨?_, ?_, ?_, ?_⟩
        · rw [he1]
          exact le_trans hc1 w1
        · rw [he2, w3]
          exact hc2
        · rw [he3]
          exact le_trans w2 hc3
        · rw [he4, w4]
          exact hc4
      · rw [if_neg hw] at hcc
        simp at hcc

/-- C8 (amended): the enclosure invariant is preserved by
merge_overlapping_tables (if every input table's bbox encloses all of its
cells' bboxes, so does every output table's), and by add_block_to_table
provided the table's four coordinates are non-zero (Python's float
truthiness resets a zero coordinate) and the block's x-extent is
well-formed; it does not hold for border-path tables, whose grid cells get
zero bboxes (see the counterexample). -/
theorem C8_bbox_encloses_cells :
    (∀ tables : List Table, (∀ t ∈ tables, TableEncloses t) →
      ∀ t ∈ merge_overlapping_tables tables, TableEncloses t) ∧
    (∀ (t : Table) (block : TextBlock) (m : TableMetrics),
      TableEncloses t → t.x0 ≠ 0 → t.y0 ≠ 0 → t.x1 ≠ 0 → t.y1 ≠ 0 →
      block.x0 ≤ block.x1 → TableEncloses (add_block_to_table t block m)) :=
  ⟨merge_preserves_encloses,
   fun t block m henc hx0 hy0 hx1 hy1 hbx =>
     add_block_preserves_encloses t block m henc hx0 hy0 hx1 hy1 hbx⟩

def pageC8 : PageData :=
  { drawings := Except.ok
      [(100, 100, 200, 100), (100, 200, 200, 200),
       (100, 100, 100, 200), (200, 100, 200, 200)],
    textBlocks := Except.ok
      [{ typ := 0, bbox := (105, 105, 195, 195), lines := [
          { spans := [
              { text := "Name", bbox := (110, 110, 140, 120), font := "F", size := 10 },
              { text := "Age", bbox := (160, 110, 190, 120), font := "F", size := 10 },
              { text := "Alice", bbox := (110, 160, 140, 170), font := "F", size := 10 },
              { text := "30", bbox := (160, 160, 190, 170), font := "F", size := 10 }] }] }] }

/-- C8 (counterexample): the border detector on a concrete bordered page
returns one table whose bbox starts at x0 = 100 while every cell built by
convert_blocks_to_cells keeps the default bbox (0,0,0,0), so the table's
bbox does not enclose its cells' bboxes. -/
theorem C8_counterexample :
    (detect_tables_from_borders pageC8 defaultMetrics).length = 1 ∧
    ((detect_tables_from_borders pageC8 defaultMetrics).headI).x0 = 100 ∧
    ¬ TableEncloses ((detect_tables_from_borders pageC8 defaultMetrics).headI) := by
  refine ⟨by decide, by decide, by decide⟩

/-- C7 (witness): the amended theorem applied to a concrete one-block list,
whose single row has exactly the minimum boundary_count + 1 cells. -/
theorem C7_rows_at_least_witness :
    (columnBoundsOf [blkC7]).length + 1 ≤ ((convert_blocks_to_cells [blkC7]).headI).length :=
  C7_rows_at_least [blkC7] ((convert_blocks_to_cells [blkC7]).headI) (by decide)
